import Mathlib

/-!
Verification development for the backup orchestrator script (backup.py).

The script is shallowly embedded: each Python function is translated to a
Lean function over explicit state.  File contents are modelled as lists of
raw lines, the host filesystem's snapshot directories as a map from
generation index to optional directory content, and external shell
commands as an environment mapping command strings to exit codes.  Python
exceptions are modelled by an explicit error type threaded through
`Except`.
-/

/-- A value stored in a `BackupConfig` instance dictionary: Python strings
and the `FILEPATHS` list of strings. -/
inductive PyVal : Type where
  | str (s : String)
  | list (l : List String)
deriving DecidableEq

/-- Errors the script can raise.  `configNotFound` models the failing
`assert os.path.exists(filename)` in `BackupConfig.__init__`;
`attributeError` models Python AttributeError (e.g. calling `.append` on a
string); `unboundLocalError` models referencing the never-assigned local
`premount`; `valueError` models a failing `pair.split('=')` unpacking or
`int(value)`; `invalidFrequency` models the failing
`assert total_snapshots > 0` in `MakeSnapshot` (in CPython the assert
message even references the undefined name `frequency_type`, so the abort
surfaces as a NameError, but control flow is identical: execution stops at
that statement); `shellError` models `ShellError` raised by `Shell` for a
non-zero exit code. -/
inductive Err : Type where
  | configNotFound
  | attributeError
  | unboundLocalError
  | valueError
  | invalidFrequency
  | shellError (cmd : String) (returncode : Nat)
deriving DecidableEq

/-- Characters stripped by Python `str.strip()` with no argument. -/
def isPySpace (c : Char) : Bool :=
  c = ' ' ∨ c = '\t' ∨ c = '\n' ∨ c = '\x0d' ∨ c = '\x0b' ∨ c = '\x0c'

/-- Python `line.strip()`: drop whitespace from both ends. -/
def pyStrip (s : String) : String :=
  String.mk (((s.data.dropWhile isPySpace).reverse.dropWhile isPySpace).reverse)

/-- Python `line.split(' ', 1)` for a line known to contain a space:
the part before the first space and everything after it, verbatim. -/
def splitFirstSpace (s : String) : String × String :=
  (String.mk (s.data.takeWhile (fun c => !(c = ' '))),
   String.mk ((s.data.dropWhile (fun c => !(c = ' '))).drop 1))

/-- Python `s.split(sep)` for a one-character separator: always returns at
least one (possibly empty) field. -/
def splitChar (sep : Char) : List Char → List (List Char)
  | [] => [[]]
  | c :: rest =>
    match splitChar sep rest with
    | [] => [[c]]
    | h :: t => if c = sep then [] :: h :: t else (c :: h) :: t

/-- Decimal digit value of a character, if it is a digit. -/
def digitVal (c : Char) : Option Nat :=
  if c.isDigit then some (c.toNat - 48) else none

/-- Parse a non-empty string of decimal digits. -/
def parseDigits (l : List Char) : Option Nat :=
  if l = [] then none
  else l.foldl (fun acc c =>
    match acc, digitVal c with
    | some a, some d => some (a * 10 + d)
    | _, _ => none) (some 0)

/-- Python `int(value)`: surrounding whitespace stripped, optional sign,
decimal digits; anything else raises ValueError. -/
def pyInt (s : String) : Except Err Int :=
  match (pyStrip s).data with
  | '-' :: rest =>
    match parseDigits rest with
    | some n => Except.ok (-(n : Int))
    | none => Except.error Err.valueError
  | '+' :: rest =>
    match parseDigits rest with
    | some n => Except.ok (n : Int)
    | none => Except.error Err.valueError
  | l =>
    match parseDigits l with
    | some n => Except.ok (n : Int)
    | none => Except.error Err.valueError

/-- Python `os.path.join(a, b)`: `b` if `b` is absolute, otherwise `a`
and `b` joined with a separator unless `a` is empty or already ends in
one. -/
def pathJoin (a b : String) : String :=
  if b.data.head? = some '/' then b
  else if a.data = [] then b
  else if a.data.getLast? = some '/' then a ++ b
  else a ++ "/" ++ b

/-- The single-quote character used when interpolating the encfs
password into the shell command line. -/
def quoteC : String := String.mk [Char.ofNat 39]

/-- The instance dictionary `self.__dict__` of a `BackupConfig`. -/
def Dict : Type := String → Option PyVal

/-- `self.__dict__[key] = v`. -/
def updateDict (d : Dict) (key : String) (v : PyVal) : Dict :=
  fun k => if k = key then some v else d k

/-- The dictionary right after `self.FILEPATHS = []` in
`BackupConfig.__init__`. -/
def initDict : Dict :=
  fun k => if k = "FILEPATHS" then some (PyVal.list []) else none

/-- Classification of one raw config line, mirroring the body of the
loop in `BackupConfig.Process`: `none` for blank lines and `#` comments,
`Sum.inl (key, value)` for a stripped line containing a space (split on
its first space), `Sum.inr path` for a stripped line without a space. -/
def classify (raw : String) : Option ((String × String) ⊕ String) :=
  let line := pyStrip raw
  if line.data = [] then none
  else if line.data.head? = some '#' then none
  else if line.data.contains ' ' then some (Sum.inl (splitFirstSpace line))
  else some (Sum.inr line)

/-- Process one config line against the instance dictionary.  A key/value
line stores into the dictionary (note: the key may be `FILEPATHS`, which
then overwrites the path list).  A path line appends to
`self.FILEPATHS`; if that attribute is no longer a list, `.append` raises
AttributeError. -/
def processLine (d : Dict) (raw : String) : Except Err Dict :=
  match classify raw with
  | none => Except.ok d
  | some (Sum.inl (k, v)) => Except.ok (updateDict d k (PyVal.str v))
  | some (Sum.inr p) =>
    match d "FILEPATHS" with
    | some (PyVal.list l) =>
      Except.ok (updateDict d "FILEPATHS" (PyVal.list (l ++ [p])))
    | _ => Except.error Err.attributeError

/-- `BackupConfig.Process`: fold the lines of the file over the
dictionary, stopping at the first raised exception. -/
def processLines (d : Dict) : List String → Except Err Dict
  | [] => Except.ok d
  | raw :: rest =>
    match processLine d raw with
    | Except.ok d2 => processLines d2 rest
    | Except.error e => Except.error e

/-- `BackupConfig.__init__`: the file's contents are `none` when the file
does not exist (the `assert os.path.exists(filename)` fails before
anything else happens), otherwise the list of its raw lines. -/
def loadConfig : Option (List String) → Except Err Dict
  | none => Except.error Err.configNotFound
  | some lines => processLines initDict lines

/-- The key/value lines of a file, in order, as classified by
`BackupConfig.Process`. -/
def kvPairs (lines : List String) : List (String × String) :=
  lines.filterMap (fun raw =>
    match classify raw with
    | some (Sum.inl kv) => some kv
    | _ => none)

/-- The path-entry lines of a file, in order. -/
def pathEntries (lines : List String) : List String :=
  lines.filterMap (fun raw =>
    match classify raw with
    | some (Sum.inr p) => some p
    | _ => none)

/-- The value of the last occurrence of a key in a key/value pair list. -/
def lastVal : List (String × String) → String → Option String
  | [], _ => none
  | kv :: ps, key =>
    match lastVal ps key with
    | some w => some w
    | none => if key = kv.1 then some kv.2 else none

/-- Whether a raw line is a key/value line whose key is `FILEPATHS`. -/
def overwritesPaths (raw : String) : Bool :=
  match classify raw with
  | some (Sum.inl kv) => kv.1 = "FILEPATHS"
  | _ => false

/-- Whether a raw line is a path-entry line. -/
def isPathLine (raw : String) : Bool :=
  match classify raw with
  | some (Sum.inr _) => true
  | _ => false

/-- Look up a key in the dictionary a load attempt produced, `none` when
loading raised. -/
def dictAt (r : Except Err Dict) (k : String) : Option (Option PyVal) :=
  match r with
  | Except.ok d => some (d k)
  | Except.error _ => none

/-- The error a load attempt raised, if any. -/
def loadErr (r : Except Err Dict) : Option Err :=
  match r with
  | Except.ok _ => none
  | Except.error e => some e

example : classify "# comment" = none := by decide
example : classify "   " = none := by decide
example : classify "KEY a b" = some (Sum.inl ("KEY", "a b")) := by decide
example : classify " /home/x/ " = some (Sum.inr "/home/x/") := by decide
deriving instance DecidableEq for Except

example : pyInt "  -42 " = Except.ok (-42) := by decide
example : pyInt "x" = Except.error Err.valueError := by decide
example : pathJoin "/mnt/enc" "current" = "/mnt/enc/current" := by decide
example :
    dictAt (loadConfig (some ["a b", "p", "a c"])) "a" =
      some (some (PyVal.str "c")) := by decide
example :
    dictAt (loadConfig (some ["a b", "p", "q"])) "FILEPATHS" =
      some (some (PyVal.list ["p", "q"])) := by decide

/-- The configuration directives `RunBackup` reads.  `PRE_MOUNT` and
`UNMOUNT_AT_END` are optional because the code handles their absence
explicitly (`except AttributeError`); the remaining directives are read
without a handler, so the model assumes configurations that define them
(absence would abort with an unhandled AttributeError at the access). -/
structure RunCfg : Type where
  PRE_MOUNT : Option String
  ENCRYPTED_MOUNTPOINT : String
  ENCFS_PASSWORD : String
  DECRYPTED_MOUNTPOINT : String
  FILEPATHS : List String
  RSYNC_FLAGS : String
  UNMOUNT_AT_END : Option String
deriving DecidableEq

/-- `"mount %s" % premount`. -/
def mountCmdOf (pm : String) : String := "mount " ++ pm

/-- `"echo '%s' | encfs -S %s %s" % (password, current, decrypted)`
where `current = os.path.join(cfg.ENCRYPTED_MOUNTPOINT, "current")`. -/
def encfsCmdOf (cfg : RunCfg) : String :=
  "echo " ++ quoteC ++ cfg.ENCFS_PASSWORD ++ quoteC ++ " | encfs -S " ++
    pathJoin cfg.ENCRYPTED_MOUNTPOINT "current" ++ " " ++
    cfg.DECRYPTED_MOUNTPOINT

/-- `"rsync %s %s %s" % (filepath, flags, decrypted)`. -/
def rsyncCmdOf (cfg : RunCfg) (fp : String) : String :=
  "rsync " ++ fp ++ " " ++ cfg.RSYNC_FLAGS ++ " " ++ cfg.DECRYPTED_MOUNTPOINT

/-- `"fusermount -u %s" % decrypted`. -/
def umountCmdOf (cfg : RunCfg) : String :=
  "fusermount -u " ++ cfg.DECRYPTED_MOUNTPOINT

/-- The rsync loop of `RunBackup`: invoke the mirror command for each
path in order; a non-zero exit raises `ShellError` and stops the loop.
Returns the outcome together with the commands issued, in order. -/
def syncLoop (env : String → Nat) (cfg : RunCfg) :
    List String → Except Err Unit × List String
  | [] => (Except.ok (), [])
  | fp :: rest =>
    let c := rsyncCmdOf cfg fp
    if env c = 0 then
      let r := syncLoop env cfg rest
      (r.1, c :: r.2)
    else (Except.error (Err.shellError c (env c)), [c])

/-- `RunBackup(cfg)`.  `env` gives the exit code of each shell command.
When `PRE_MOUNT` is absent the `try`/`except AttributeError` leaves the
local `premount` unassigned, and the subsequent
`Shell("mount %s" % premount)` raises UnboundLocalError while formatting
the command, before any command is issued; the surrounding handler only
catches `ShellError`, so the exception propagates.  When `PRE_MOUNT` is
present, a mount exit code of 32 (already mounted) is swallowed and any
other non-zero code re-raised; then the encfs mount, the rsync loop, and
(depending on `UNMOUNT_AT_END`) the final `fusermount -u` run in order,
each non-zero exit raising `ShellError`.  Returns the outcome and the
commands issued, in order. -/
def RunBackup (cfg : RunCfg) (env : String → Nat) :
    Except Err Unit × List String :=
  match cfg.PRE_MOUNT with
  | none => (Except.error Err.unboundLocalError, [])
  | some pm =>
    let c1 := mountCmdOf pm
    if env c1 = 0 ∨ env c1 = 32 then
      let c2 := encfsCmdOf cfg
      if env c2 = 0 then
        let r := syncLoop env cfg cfg.FILEPATHS
        match r.1 with
        | Except.error e => (Except.error e, c1 :: c2 :: r.2)
        | Except.ok _ =>
          let shouldUnmount :=
            match cfg.UNMOUNT_AT_END with
            | none => true
            | some v => v = "True"
          if shouldUnmount then
            let c4 := umountCmdOf cfg
            if env c4 = 0 then (Except.ok (), c1 :: c2 :: r.2 ++ [c4])
            else (Except.error (Err.shellError c4 (env c4)),
                  c1 :: c2 :: r.2 ++ [c4])
          else (Except.ok (), c1 :: c2 :: r.2)
      else (Except.error (Err.shellError c2 (env c2)), [c1, c2])
    else (Except.error (Err.shellError c1 (env c1)), [c1])

/-- The state of one frequency's snapshot directories under the
encrypted mount root: generation index `i` stands for the directory
`<frequency>.<i>`, holding `some` content when the directory exists. -/
def GenState (α : Type) : Type := Nat → Option α

/-- Set (or remove, with `none`) the directory at one generation. -/
def setGen {α : Type} (s : GenState α) (i : Nat) (v : Option α) :
    GenState α :=
  fun j => if j = i then v else s j

/-- `if os.path.exists(source): Shell("mv source dest")`: when the source
generation exists, move its content to the destination generation and
clear the source; otherwise do nothing. -/
def mvGen {α : Type} (s : GenState α) (src dst : Nat) : GenState α :=
  if (s src).isSome then setGen (setGen s dst (s src)) src none else s

/-- A filesystem command issued by `MakeSnapshot`:
`rm -rf <freq>.<gen>`, `mv <freq>.<src> <freq>.<dst>`, or
`cp -al current <freq>.1`. -/
inductive FsCmd : Type where
  | rm (freq : String) (gen : Nat)
  | mv (freq : String) (srcGen dstGen : Nat)
  | cpAl (freq : String)
deriving DecidableEq

/-- The shift loop of `MakeSnapshot`:
`for ii in range(total_snapshots, 1, -1)` moves generation `ii - 1` to
`ii` when it exists.  The second argument is the first value of `ii`;
the loop body runs for `ii` down to 2.  Returns the final state and the
`mv` commands issued, in order. -/
def shiftFrom {α : Type} (freq : String) :
    GenState α → Nat → GenState α × List FsCmd
  | s, 0 => (s, [])
  | s, 1 => (s, [])
  | s, n + 2 =>
    if (s (n + 1)).isSome then
      let r := shiftFrom freq (mvGen s (n + 1) (n + 2)) (n + 1)
      (r.1, FsCmd.mv freq (n + 1) (n + 2) :: r.2)
    else shiftFrom freq s (n + 1)

/-- The accumulator loop over `cfg.SNAPSHOTS.split(',')`: each pair is
split on `=` (raising ValueError unless exactly two fields result), and
when the key equals the requested frequency, `int(value)` becomes the
new running value of `total_snapshots`. -/
def totalSnapshotsGo (freq : String) :
    List (List Char) → Int → Except Err Int
  | [], acc => Except.ok acc
  | pair :: rest, acc =>
    match splitChar '=' pair with
    | [k, v] =>
      if String.mk k = freq then
        match pyInt (String.mk v) with
        | Except.ok n => totalSnapshotsGo freq rest n
        | Except.error e => Except.error e
      else totalSnapshotsGo freq rest acc
    | _ => Except.error Err.valueError

/-- The value of `total_snapshots` computed at the top of
`MakeSnapshot` from the `SNAPSHOTS` directive: 0 when the frequency
never appears, otherwise the `int` of the value of its last
occurrence. -/
def totalSnapshots (snaps freq : String) : Except Err Int :=
  totalSnapshotsGo freq (splitChar ',' snaps.data) 0

/-- The keys of the well-formed `frequency=count` pairs of the
`SNAPSHOTS` directive. -/
def tableKeys (snaps : String) : List String :=
  (splitChar ',' snaps.data).filterMap (fun p =>
    match splitChar '=' p with
    | [k, _] => some (String.mk k)
    | _ => none)

/-- `MakeSnapshot(cfg, frequency)` over the snapshot state of the given
frequency.  `snaps` is `cfg.SNAPSHOTS`, `cur` the content of the
`current` directory, `s` the pre-rotation generation state.  After the
depth lookup and the `assert total_snapshots > 0`, the code issues
`rm -rf <freq>.<N>` (recursive, no error when absent), the descending
shift loop, and `cp -al current <freq>.1` (whose destination is always
absent at that point).  The model executes these commands on the state;
a run in which none of them fails is a successful rotation.  Returns the
outcome and the commands issued, in order. -/
def MakeSnapshot {α : Type} (snaps freq : String) (cur : α)
    (s : GenState α) : Except Err (GenState α) × List FsCmd :=
  match totalSnapshots snaps freq with
  | Except.error e => (Except.error e, [])
  | Except.ok n =>
    if n ≤ 0 then (Except.error Err.invalidFrequency, [])
    else
      let N := n.toNat
      let s1 := setGen s N none
      let r := shiftFrom freq s1 N
      (Except.ok (setGen r.1 1 (some cur)),
       FsCmd.rm freq N :: r.2 ++ [FsCmd.cpAl freq])

/-- One phase the module-level dispatch can run: the mount-and-sync
backup (`RunBackup`) or one frequency's rotation (`MakeSnapshot`). -/
inductive Phase : Type where
  | backup
  | rot (freq : String)
deriving DecidableEq

/-- The `for arg in sys.argv[1:]` loop: every argument other than the
literal `snapshot` is passed to `MakeSnapshot`; an exception is logged
and re-raised, terminating the process, so later arguments are not
attempted.  `ok` tells whether a phase succeeds.  Returns the phases
run, in order, and whether all of them succeeded. -/
def rotLoop (ok : Phase → Bool) : List String → List Phase × Bool
  | [] => ([], true)
  | a :: rest =>
    if a = "snapshot" then rotLoop ok rest
    else if ok (Phase.rot a) then
      let r := rotLoop ok rest
      (Phase.rot a :: r.1, r.2)
    else ([Phase.rot a], false)

/-- The module-level dispatch: `if 'snapshot' in sys.argv[1:]` runs
`RunBackup` first (re-raising on failure, which terminates the process
before any rotation); then the loop over all arguments rotates each
non-`snapshot` token in order.  `args` is `sys.argv[1:]`. -/
def dispatch (args : List String) (ok : Phase → Bool) :
    List Phase × Bool :=
  if "snapshot" ∈ args then
    if ok Phase.backup then
      let r := rotLoop ok args
      (Phase.backup :: r.1, r.2)
    else ([Phase.backup], false)
  else rotLoop ok args

theorem kvPairs_cons (raw : String) (rest : List String) :
    kvPairs (raw :: rest) =
      (match classify raw with
       | some (Sum.inl kv) => kv :: kvPairs rest
       | _ => kvPairs rest) := by
  simp only [kvPairs, List.filterMap_cons]
  cases hc : classify raw with
  | none => simp
  | some x => cases x with
    | inl kv => simp
    | inr p => simp

theorem pathEntries_cons (raw : String) (rest : List String) :
    pathEntries (raw :: rest) =
      (match classify raw with
       | some (Sum.inr p) => p :: pathEntries rest
       | _ => pathEntries rest) := by
  simp only [pathEntries, List.filterMap_cons]
  cases hc : classify raw with
  | none => simp
  | some x => cases x with
    | inl kv => simp
    | inr p => simp

theorem updateDict_same (d : Dict) (key : String) (v : PyVal) :
    updateDict d key v key = some v := by
  simp [updateDict]

theorem updateDict_other (d : Dict) (key : String) (v : PyVal) (k : String)
    (h : k ≠ key) : updateDict d key v k = d k := by
  simp [updateDict, h]

/-- Processing a line list whose key/value lines never use the key
`FILEPATHS`, starting from a dictionary whose `FILEPATHS` attribute is
the path list `acc`: processing succeeds, the final path list is `acc`
followed by the file's path entries in order, and every other key holds
the value of its last key/value occurrence (or its initial value when it
never occurs). -/
theorem processLines_spec (lines : List String) :
    ∀ (d : Dict) (acc : List String),
      "FILEPATHS" ∉ (kvPairs lines).map Prod.fst →
      d "FILEPATHS" = some (PyVal.list acc) →
      ∃ d2, processLines d lines = Except.ok d2 ∧
        d2 "FILEPATHS" = some (PyVal.list (acc ++ pathEntries lines)) ∧
        ∀ k, k ≠ "FILEPATHS" →
          d2 k = (match lastVal (kvPairs lines) k with
                  | some v => some (PyVal.str v)
                  | none => d k) := by
  induction lines with
  | nil =>
    intro d acc _ hd
    refine ⟨d, rfl, ?_, ?_⟩
    · simpa [pathEntries] using hd
    · intro k _
      simp [kvPairs, lastVal]
  | cons raw rest ih =>
    intro d acc hF hd
    cases hc : classify raw with
    | none =>
      have hkv : kvPairs (raw :: rest) = kvPairs rest := by
        rw [kvPairs_cons, hc]
      have hpe : pathEntries (raw :: rest) = pathEntries rest := by
        rw [pathEntries_cons, hc]
      rw [hkv] at hF
      obtain ⟨d2, h1, h2, h3⟩ := ih d acc hF hd
      refine ⟨d2, ?_, ?_, ?_⟩
      · simpa [processLines, processLine, hc] using h1
      · rwa [hpe]
      · intro k hk
        rw [hkv]
        exact h3 k hk
    | some x => cases x with
      | inl kv =>
        obtain ⟨k0, v0⟩ := kv
        have hkv : kvPairs (raw :: rest) = (k0, v0) :: kvPairs rest := by
          rw [kvPairs_cons, hc]
        have hpe : pathEntries (raw :: rest) = pathEntries rest := by
          rw [pathEntries_cons, hc]
        rw [hkv] at hF
        have hne : k0 ≠ "FILEPATHS" := by
          intro h
          exact hF (by simp [h])
        have hF2 : "FILEPATHS" ∉ (kvPairs rest).map Prod.fst := by
          intro h
          exact hF (by simp [h])
        have hd1 : updateDict d k0 (PyVal.str v0) "FILEPATHS" =
            some (PyVal.list acc) := by
          rw [updateDict_other d k0 (PyVal.str v0) "FILEPATHS"
            (fun h => hne h.symm)]
          exact hd
        obtain ⟨d2, h1, h2, h3⟩ := ih (updateDict d k0 (PyVal.str v0)) acc hF2 hd1
        refine ⟨d2, ?_, ?_, ?_⟩
        · simpa [processLines, processLine, hc] using h1
        · rwa [hpe]
        · intro k hk
          rw [hkv]
          have h4 := h3 k hk
          cases hl : lastVal (kvPairs rest) k with
          | some w =>
            rw [hl] at h4
            simpa [lastVal, hl] using h4
          | none =>
            rw [hl] at h4
            by_cases hkk : k = k0
            · subst hkk
              rw [updateDict_same] at h4
              simpa [lastVal, hl] using h4
            · rw [updateDict_other d k0 (PyVal.str v0) k hkk] at h4
              simpa [lastVal, hl, hkk] using h4
      | inr p =>
        have hkv : kvPairs (raw :: rest) = kvPairs rest := by
          rw [kvPairs_cons, hc]
        have hpe : pathEntries (raw :: rest) = p :: pathEntries rest := by
          rw [pathEntries_cons, hc]
        rw [hkv] at hF
        have hd1 : updateDict d "FILEPATHS" (PyVal.list (acc ++ [p]))
            "FILEPATHS" = some (PyVal.list (acc ++ [p])) := updateDict_same ..
        obtain ⟨d2, h1, h2, h3⟩ :=
          ih (updateDict d "FILEPATHS" (PyVal.list (acc ++ [p]))) (acc ++ [p])
            hF hd1
        refine ⟨d2, ?_, ?_, ?_⟩
        · simpa [processLines, processLine, hc, hd] using h1
        · rw [hpe]
          simpa using h2
        · intro k hk
          rw [hkv]
          have h4 := h3 k hk
          cases hl : lastVal (kvPairs rest) k with
          | some w =>
            rw [hl] at h4
            simpa [hl] using h4
          | none =>
            rw [hl] at h4
            rw [updateDict_other _ _ _ k hk] at h4
            simpa [hl] using h4

/-- Processing a list of lines none of which is a path line succeeds from
any dictionary: key/value stores and skipped lines cannot raise. -/
theorem processLines_no_paths (lines : List String) :
    ∀ d : Dict, (∀ raw ∈ lines, isPathLine raw = false) →
      ∃ d2, processLines d lines = Except.ok d2 := by
  induction lines with
  | nil =>
    intro d _
    exact ⟨d, rfl⟩
  | cons raw rest ih =>
    intro d h
    have hr : isPathLine raw = false := h raw (by simp)
    have hrest : ∀ r ∈ rest, isPathLine r = false :=
      fun r hr2 => h r (by simp [hr2])
    cases hc : classify raw with
    | none =>
      obtain ⟨d2, h2⟩ := ih d hrest
      exact ⟨d2, by simpa [processLines, processLine, hc] using h2⟩
    | some x => cases x with
      | inl kv =>
        obtain ⟨d2, h2⟩ := ih (updateDict d kv.1 (PyVal.str kv.2)) hrest
        exact ⟨d2, by simpa [processLines, processLine, hc] using h2⟩
      | inr p =>
        rw [isPathLine, hc] at hr
        cases hr

/-- Processing succeeds whenever no path line occurs after a key/value
line whose key is `FILEPATHS`, starting from a dictionary whose
`FILEPATHS` attribute is still a list. -/
theorem processLines_ok_of_no_late_paths (lines : List String) :
    ∀ (d : Dict) (acc : List String),
      lines.Pairwise
        (fun a b => ¬(overwritesPaths a = true ∧ isPathLine b = true)) →
      d "FILEPATHS" = some (PyVal.list acc) →
      ∃ d2, processLines d lines = Except.ok d2 := by
  induction lines with
  | nil =>
    intro d _ _ _
    exact ⟨d, rfl⟩
  | cons raw rest ih =>
    intro d acc hpw hd
    obtain ⟨hhead, htail⟩ := List.pairwise_cons.mp hpw
    cases hc : classify raw with
    | none =>
      obtain ⟨d2, h2⟩ := ih d acc htail hd
      exact ⟨d2, by simpa [processLines, processLine, hc] using h2⟩
    | some x => cases x with
      | inl kv =>
        obtain ⟨k0, v0⟩ := kv
        by_cases hk : k0 = "FILEPATHS"
        · have hop : overwritesPaths raw = true := by
            rw [overwritesPaths, hc]
            simpa using hk
          have hnp : ∀ b ∈ rest, isPathLine b = false := by
            intro b hb
            have := hhead b hb
            cases hpb : isPathLine b with
            | false => rfl
            | true => exact absurd ⟨hop, hpb⟩ this
          obtain ⟨d2, h2⟩ :=
            processLines_no_paths rest (updateDict d k0 (PyVal.str v0)) hnp
          exact ⟨d2, by simpa [processLines, processLine, hc] using h2⟩
        · have hd1 : updateDict d k0 (PyVal.str v0) "FILEPATHS" =
              some (PyVal.list acc) := by
            rw [updateDict_other d k0 (PyVal.str v0) "FILEPATHS"
              (fun h => hk h.symm)]
            exact hd
          obtain ⟨d2, h2⟩ := ih (updateDict d k0 (PyVal.str v0)) acc htail hd1
          exact ⟨d2, by simpa [processLines, processLine, hc] using h2⟩
      | inr p =>
        obtain ⟨d2, h2⟩ :=
          ih (updateDict d "FILEPATHS" (PyVal.list (acc ++ [p]))) (acc ++ [p])
            htail (updateDict_same ..)
        exact ⟨d2, by simpa [processLines, processLine, hc, hd] using h2⟩

/-- C7 counterexample: the file with lines `p` and `FILEPATHS x` has one
path line and one key/value line whose single key is distinct, yet after
loading the `FILEPATHS` attribute holds the string `x`, not the
one-element path list `[p]`: the path entry from the earlier line was
discarded. -/
theorem config_counts_counterexample :
    dictAt (loadConfig (some ["p", "FILEPATHS x"])) "FILEPATHS" =
      some (some (PyVal.str "x")) ∧
    some (some (PyVal.str "x")) ≠
      some (some (PyVal.list ["p"])) := by
  exact ⟨by decide, by decide⟩

/-- C7 (amended): for a config file whose key/value lines never use the
key `FILEPATHS`, loading yields exactly the file's path-entry lines, in
file order, as the path list, and maps each key of a key/value line to
the value of its last occurrence (split on the first space of the line),
with no mapping for any other key. -/
theorem config_load_counts (lines : List String)
    (hF : "FILEPATHS" ∉ (kvPairs lines).map Prod.fst) :
    ∃ d, processLines initDict lines = Except.ok d ∧
      d "FILEPATHS" = some (PyVal.list (pathEntries lines)) ∧
      ∀ k, k ≠ "FILEPATHS" →
        d k = (match lastVal (kvPairs lines) k with
               | some v => some (PyVal.str v)
               | none => none) := by
  obtain ⟨d, h1, h2, h3⟩ :=
    processLines_spec lines initDict [] hF (by simp [initDict])
  refine ⟨d, h1, by simpa using h2, ?_⟩
  intro k hk
  have h4 := h3 k hk
  cases hl : lastVal (kvPairs lines) k with
  | some w =>
    rw [hl] at h4
    simpa using h4
  | none =>
    rw [hl] at h4
    rw [h4]
    simp [initDict, hk]

theorem config_load_counts_witness :
    ("FILEPATHS" ∉
      (kvPairs ["# comment", "", "KEY a b", "/data/", "KEY z", "/etc/f"]).map
        Prod.fst) ∧
    ∃ d, processLines initDict
        ["# comment", "", "KEY a b", "/data/", "KEY z", "/etc/f"] =
        Except.ok d ∧
      d "FILEPATHS" =
        some (PyVal.list (pathEntries
          ["# comment", "", "KEY a b", "/data/", "KEY z", "/etc/f"])) ∧
      ∀ k, k ≠ "FILEPATHS" →
        d k = (match lastVal (kvPairs
                 ["# comment", "", "KEY a b", "/data/", "KEY z", "/etc/f"]) k
               with
               | some v => some (PyVal.str v)
               | none => none) := by
  refine ⟨by decide, ?_⟩
  exact config_load_counts _ (by decide)

/-- C8 counterexample: for the existing config file with lines
`FILEPATHS x` and `p`, loading raises AttributeError (appending to the
overwritten `FILEPATHS` string), so loading does not succeed for every
existing file. -/
theorem load_success_counterexample :
    loadErr (loadConfig (some ["FILEPATHS x", "p"])) =
      some Err.attributeError := by decide

/-- C8 (amended): when the config file is absent, loading fails with the
existence assertion (`ConfigNotFound`) before anything else happens (no
filesystem mutation: loading never issues a command); when the file
exists and no path line follows a key/value line whose key is
`FILEPATHS`, loading succeeds no matter which directives are present or
absent. -/
theorem load_missing_file_and_lazy_validation (lines : List String)
    (h : lines.Pairwise
      (fun a b => ¬(overwritesPaths a = true ∧ isPathLine b = true))) :
    loadConfig none = Except.error Err.configNotFound ∧
    ∃ d, loadConfig (some lines) = Except.ok d := by
  exact ⟨rfl,
    processLines_ok_of_no_late_paths lines initDict [] h (by simp [initDict])⟩

theorem load_missing_file_and_lazy_validation_witness :
    (["/a/", "UNKNOWN_KEY v", "FILEPATHS tail-position-ok"].Pairwise
      (fun a b => ¬(overwritesPaths a = true ∧ isPathLine b = true))) ∧
    (loadConfig none = Except.error Err.configNotFound ∧
      ∃ d, loadConfig
        (some ["/a/", "UNKNOWN_KEY v", "FILEPATHS tail-position-ok"]) =
          Except.ok d) := by
  refine ⟨by decide, ?_⟩
  exact load_missing_file_and_lazy_validation _ (by decide)

/-- C10: a config line whose key field is the literal `FILEPATHS`
overwrites the accumulated path list with the value string: whatever the
dictionary held for `FILEPATHS` before (in particular the path entries of
all earlier lines), afterwards it holds the plain string value, which is
no list at all; any later path line then raises AttributeError instead
of appending. -/
theorem filepaths_key_overwrites (raw v : String) (d : Dict)
    (h : classify raw = some (Sum.inl ("FILEPATHS", v))) :
    processLine d raw =
      Except.ok (updateDict d "FILEPATHS" (PyVal.str v)) ∧
    updateDict d "FILEPATHS" (PyVal.str v) "FILEPATHS" =
      some (PyVal.str v) ∧
    (∀ l : List String, PyVal.str v ≠ PyVal.list l) ∧
    ∀ raw2 p, classify raw2 = some (Sum.inr p) →
      processLine (updateDict d "FILEPATHS" (PyVal.str v)) raw2 =
        Except.error Err.attributeError := by
  refine ⟨by simp [processLine, h], updateDict_same .., fun l => by simp, ?_⟩
  intro raw2 p h2
  simp [processLine, h2, updateDict]

theorem filepaths_key_overwrites_witness :
    classify "FILEPATHS /x /y" =
      some (Sum.inl ("FILEPATHS", "/x /y")) ∧
    processLine initDict "FILEPATHS /x /y" =
      Except.ok (updateDict initDict "FILEPATHS" (PyVal.str "/x /y")) := by
  have h : classify "FILEPATHS /x /y" =
      some (Sum.inl ("FILEPATHS", "/x /y")) := by decide
  exact ⟨h, (filepaths_key_overwrites "FILEPATHS /x /y" "/x /y" initDict h).1⟩

/-- When every mirror invocation succeeds, the rsync loop issues one
command per configured path, in list order, and returns success. -/
theorem syncLoop_all_ok (cfg : RunCfg) (env : String → Nat) :
    ∀ l : List String, (∀ p ∈ l, env (rsyncCmdOf cfg p) = 0) →
      syncLoop env cfg l = (Except.ok (), l.map (rsyncCmdOf cfg)) := by
  intro l
  induction l with
  | nil => intro _; rfl
  | cons fp rest ih =>
    intro h
    have h0 : env (rsyncCmdOf cfg fp) = 0 := h fp (by simp)
    have hr : syncLoop env cfg rest = (Except.ok (), rest.map (rsyncCmdOf cfg)) :=
      ih (fun p hp => h p (by simp [hp]))
    simp [syncLoop, h0, hr]

/-- When every mirror invocation before `fp` succeeds and the one for
`fp` fails, the rsync loop issues exactly the commands up to and
including `fp`, in order, and raises the shell failure of `fp`. -/
theorem syncLoop_first_fail (cfg : RunCfg) (env : String → Nat)
    (fp : String) (l₂ : List String) :
    ∀ l₁ : List String, (∀ p ∈ l₁, env (rsyncCmdOf cfg p) = 0) →
      env (rsyncCmdOf cfg fp) ≠ 0 →
      syncLoop env cfg (l₁ ++ fp :: l₂) =
        (Except.error
          (Err.shellError (rsyncCmdOf cfg fp) (env (rsyncCmdOf cfg fp))),
         l₁.map (rsyncCmdOf cfg) ++ [rsyncCmdOf cfg fp]) := by
  intro l₁
  induction l₁ with
  | nil =>
    intro _ hfail
    simp [syncLoop, hfail]
  | cons q rest ih =>
    intro hok hfail
    have h0 : env (rsyncCmdOf cfg q) = 0 := hok q (by simp)
    have hr := ih (fun p hp => hok p (by simp [hp])) hfail
    simp [syncLoop, h0, hr]

/-- C3: the code contradicts its own `# No pre-mount specified, that's
OK` comment.  When no `PRE_MOUNT` directive is configured, the
`except AttributeError: pass` leaves the local `premount` unassigned and
`Shell("mount %s" % premount)` raises UnboundLocalError while formatting
the command; the handler around it only catches `ShellError`, so the run
aborts before any command — in particular the encfs mount — is issued. -/
theorem runBackup_missing_premount (cfg : RunCfg) (env : String → Nat)
    (hp : cfg.PRE_MOUNT = none) :
    RunBackup cfg env = (Except.error Err.unboundLocalError, []) := by
  simp [RunBackup, hp]

def cfgW : RunCfg :=
  { PRE_MOUNT := some "/dev/sdb1"
    ENCRYPTED_MOUNTPOINT := "/mnt/enc"
    ENCFS_PASSWORD := "pw"
    DECRYPTED_MOUNTPOINT := "/mnt/dec"
    FILEPATHS := ["/a/", "/b", "/c/"]
    RSYNC_FLAGS := "-az"
    UNMOUNT_AT_END := none }

theorem runBackup_missing_premount_witness :
    ({ cfgW with PRE_MOUNT := none } : RunCfg).PRE_MOUNT = none ∧
    RunBackup { cfgW with PRE_MOUNT := none } (fun _ => 0) =
      (Except.error Err.unboundLocalError, []) := by
  exact ⟨rfl,
    runBackup_missing_premount { cfgW with PRE_MOUNT := none } (fun _ => 0) rfl⟩

/-- C4: with a configured pre-mount device, a mount exit code equal to
the already-mounted sentinel 32 is swallowed and the run continues to
the encfs mount (the first two commands issued are the pre-mount and the
encfs mount); any other non-zero exit code re-raises the shell failure
and the run aborts having issued only the pre-mount command, so the
encfs mount command is never issued. -/
theorem premount_sentinel (cfg : RunCfg) (env : String → Nat) (pm : String)
    (hp : cfg.PRE_MOUNT = some pm) :
    (env (mountCmdOf pm) = 32 →
      (RunBackup cfg env).2.take 2 = [mountCmdOf pm, encfsCmdOf cfg]) ∧
    (env (mountCmdOf pm) ≠ 0 → env (mountCmdOf pm) ≠ 32 →
      RunBackup cfg env =
        (Except.error (Err.shellError (mountCmdOf pm) (env (mountCmdOf pm))),
         [mountCmdOf pm])) := by
  constructor
  · intro h32
    simp only [RunBackup, hp]
    rw [if_pos (Or.inr h32)]
    by_cases h2 : env (encfsCmdOf cfg) = 0
    · simp only [h2, if_pos rfl]
      cases h3 : (syncLoop env cfg cfg.FILEPATHS).1 with
      | error e => simp
      | ok u =>
        cases u
        cases hU : (match cfg.UNMOUNT_AT_END with
            | none => true
            | some v => decide (v = "True")) with
        | false => simp [hU]
        | true =>
          by_cases h4 : env (umountCmdOf cfg) = 0 <;> simp [hU, h4]
    · rw [if_neg h2]
      simp
  · intro hne h32
    simp only [RunBackup, hp]
    rw [if_neg (by simp [hne, h32])]

theorem premount_sentinel_witness :
    cfgW.PRE_MOUNT = some "/dev/sdb1" ∧
    ((fun c => if c = mountCmdOf "/dev/sdb1" then 32 else 0)
        (mountCmdOf "/dev/sdb1") = 32) ∧
    (RunBackup cfgW
        (fun c => if c = mountCmdOf "/dev/sdb1" then 32 else 0)).2.take 2 =
      [mountCmdOf "/dev/sdb1", encfsCmdOf cfgW] ∧
    RunBackup cfgW (fun c => if c = mountCmdOf "/dev/sdb1" then 7 else 0) =
      (Except.error (Err.shellError (mountCmdOf "/dev/sdb1") 7),
       [mountCmdOf "/dev/sdb1"]) := by
  refine ⟨rfl, by decide, ?_, ?_⟩
  · exact (premount_sentinel cfgW
      (fun c => if c = mountCmdOf "/dev/sdb1" then 32 else 0) "/dev/sdb1"
      rfl).1 (by decide)
  · have h := (premount_sentinel cfgW
      (fun c => if c = mountCmdOf "/dev/sdb1" then 7 else 0) "/dev/sdb1"
      rfl).2 (by decide) (by decide)
    simpa using h

/-- C5: with the mounts established, the rsync loop runs the mirror
command for each configured path in list order until the first failure:
the run issues exactly the pre-mount, the encfs mount, the mirror
commands for every path up to and including the failing one (so every
earlier path was attempted and no later one is), skips the unmount
command, and propagates the shell failure of the failing mirror
invocation. -/
theorem sync_first_failure (cfg : RunCfg) (env : String → Nat) (pm : String)
    (l₁ : List String) (fp : String) (l₂ : List String)
    (hp : cfg.PRE_MOUNT = some pm)
    (hsplit : cfg.FILEPATHS = l₁ ++ fp :: l₂)
    (h1 : env (mountCmdOf pm) = 0)
    (h2 : env (encfsCmdOf cfg) = 0)
    (hok : ∀ p ∈ l₁, env (rsyncCmdOf cfg p) = 0)
    (hfail : env (rsyncCmdOf cfg fp) ≠ 0) :
    RunBackup cfg env =
      (Except.error
        (Err.shellError (rsyncCmdOf cfg fp) (env (rsyncCmdOf cfg fp))),
       mountCmdOf pm :: encfsCmdOf cfg ::
         (l₁.map (rsyncCmdOf cfg) ++ [rsyncCmdOf cfg fp])) := by
  have hs := syncLoop_first_fail cfg env fp l₂ l₁ hok hfail
  simp only [RunBackup, hp]
  rw [if_pos (Or.inl h1), if_pos h2, hsplit, hs]

theorem sync_first_failure_witness :
    cfgW.PRE_MOUNT = some "/dev/sdb1" ∧
    cfgW.FILEPATHS = ["/a/"] ++ "/b" :: ["/c/"] ∧
    RunBackup cfgW (fun c => if c = rsyncCmdOf cfgW "/b" then 23 else 0) =
      (Except.error (Err.shellError (rsyncCmdOf cfgW "/b") 23),
       mountCmdOf "/dev/sdb1" :: encfsCmdOf cfgW ::
         (["/a/"].map (rsyncCmdOf cfgW) ++ [rsyncCmdOf cfgW "/b"])) := by
  refine ⟨rfl, rfl, ?_⟩
  have h := sync_first_failure cfgW
    (fun c => if c = rsyncCmdOf cfgW "/b" then 23 else 0) "/dev/sdb1"
    ["/a/"] "/b" ["/c/"] rfl rfl (by decide) (by decide) (by decide)
    (by decide)
  simpa using h

/-- C6: when the pre-mount, encfs mount, and every mirror invocation
succeed (the empty path list included), the unmount command for the
decrypted mount point is issued exactly when the `UNMOUNT_AT_END`
directive is absent or its value is the literal string `True`; with any
other value the mount is left in place. -/
theorem unmount_at_end_flag (cfg : RunCfg) (env : String → Nat) (pm : String)
    (hp : cfg.PRE_MOUNT = some pm)
    (h1 : env (mountCmdOf pm) = 0)
    (h2 : env (encfsCmdOf cfg) = 0)
    (hsync : ∀ p ∈ cfg.FILEPATHS, env (rsyncCmdOf cfg p) = 0) :
    (RunBackup cfg env).2 =
      mountCmdOf pm :: encfsCmdOf cfg :: cfg.FILEPATHS.map (rsyncCmdOf cfg) ++
        (if cfg.UNMOUNT_AT_END = none ∨ cfg.UNMOUNT_AT_END = some "True"
         then [umountCmdOf cfg] else []) := by
  have hs := syncLoop_all_ok cfg env cfg.FILEPATHS hsync
  simp only [RunBackup, hp]
  rw [if_pos (Or.inl h1), if_pos h2, hs]
  cases hU : cfg.UNMOUNT_AT_END with
  | none =>
    by_cases h4 : env (umountCmdOf cfg) = 0 <;> simp [h4]
  | some v =>
    by_cases hv : v = "True"
    · subst hv
      by_cases h4 : env (umountCmdOf cfg) = 0 <;> simp [h4]
    · simp [hv]

theorem unmount_at_end_flag_witness :
    cfgW.PRE_MOUNT = some "/dev/sdb1" ∧
    ({ cfgW with UNMOUNT_AT_END := some "False" } : RunCfg).PRE_MOUNT =
      some "/dev/sdb1" ∧
    (RunBackup cfgW (fun _ => 0)).2 =
      mountCmdOf "/dev/sdb1" :: encfsCmdOf cfgW ::
        cfgW.FILEPATHS.map (rsyncCmdOf cfgW) ++ [umountCmdOf cfgW] ∧
    (RunBackup { cfgW with UNMOUNT_AT_END := some "False" }
        (fun _ => 0)).2 =
      mountCmdOf "/dev/sdb1" ::
        encfsCmdOf { cfgW with UNMOUNT_AT_END := some "False" } ::
        ({ cfgW with UNMOUNT_AT_END := some "False" } : RunCfg).FILEPATHS.map
          (rsyncCmdOf { cfgW with UNMOUNT_AT_END := some "False" }) := by
  refine ⟨rfl, rfl, ?_, ?_⟩
  · have h := unmount_at_end_flag cfgW (fun _ => 0) "/dev/sdb1" rfl rfl rfl
      (by intro p _; rfl)
    simpa using h
  · have h := unmount_at_end_flag { cfgW with UNMOUNT_AT_END := some "False" }
      (fun _ => 0) "/dev/sdb1" rfl rfl rfl (by intro p _; rfl)
    simpa using h

theorem setGen_same {α : Type} (s : GenState α) (i : Nat) (v : Option α) :
    setGen s i v i = v := by
  simp [setGen]

theorem setGen_other {α : Type} (s : GenState α) (i : Nat) (v : Option α)
    (j : Nat) (h : j ≠ i) : setGen s i v j = s j := by
  simp [setGen, h]

/-- The shift loop, started at generation `n` on a state whose slot `n`
is empty, leaves every generation `j` in `2..n` holding the pre-loop
content of generation `j - 1` (empty slots are simply skipped) and never
touches a generation above `n`.  The loop runs in strictly descending
order, so a source generation is always read before the loop overwrites
it. -/
theorem shiftFrom_state {α : Type} (freq : String) :
    ∀ (n : Nat) (s : GenState α), s n = none →
      (∀ j, 2 ≤ j → j ≤ n → (shiftFrom freq s n).1 j = s (j - 1)) ∧
      (∀ j, n < j → (shiftFrom freq s n).1 j = s j) := by
  intro n
  induction n using Nat.strong_induction_on with
  | _ n ih =>
    match n with
    | 0 =>
      intro s _
      exact ⟨fun j h2 hj => by omega, fun j _ => rfl⟩
    | 1 =>
      intro s _
      exact ⟨fun j h2 hj => by omega, fun j _ => rfl⟩
    | (m + 2) =>
      intro s hs
      by_cases hsome : (s (m + 1)).isSome
      · have hunf : shiftFrom freq s (m + 2) =
            ((shiftFrom freq (mvGen s (m + 1) (m + 2)) (m + 1)).1,
             FsCmd.mv freq (m + 1) (m + 2) ::
               (shiftFrom freq (mvGen s (m + 1) (m + 2)) (m + 1)).2) := by
          simp [shiftFrom, hsome]
        have hmv : mvGen s (m + 1) (m + 2) =
            setGen (setGen s (m + 2) (s (m + 1))) (m + 1) none := by
          simp [mvGen, hsome]
        have hs2none : mvGen s (m + 1) (m + 2) (m + 1) = none := by
          rw [hmv]
          exact setGen_same ..
        have hs2top : mvGen s (m + 1) (m + 2) (m + 2) = s (m + 1) := by
          rw [hmv, setGen_other _ _ _ _ (by omega), setGen_same ..]
        have hs2oth : ∀ j, j ≠ m + 1 → j ≠ m + 2 →
            mvGen s (m + 1) (m + 2) j = s j := by
          intro j hj1 hj2
          rw [hmv, setGen_other _ _ _ _ hj1, setGen_other _ _ _ _ hj2]
        obtain ⟨A, B⟩ := ih (m + 1) (by omega) (mvGen s (m + 1) (m + 2)) hs2none
        constructor
        · intro j h2 hj
          rw [hunf]
          by_cases hcase : j ≤ m + 1
          · rw [A j h2 hcase, hs2oth (j - 1) (by omega) (by omega)]
          · have hj2 : j = m + 2 := by omega
            subst hj2
            rw [B (m + 2) (by omega), hs2top]
            congr 1
        · intro j hj
          rw [hunf]
          rw [B j (by omega), hs2oth j (by omega) (by omega)]
      · have hs1 : s (m + 1) = none :=
          Option.not_isSome_iff_eq_none.mp hsome
        have hunf : shiftFrom freq s (m + 2) = shiftFrom freq s (m + 1) := by
          simp [shiftFrom, hsome]
        obtain ⟨A, B⟩ := ih (m + 1) (by omega) s hs1
        constructor
        · intro j h2 hj
          rw [hunf]
          by_cases hcase : j ≤ m + 1
          · exact A j h2 hcase
          · have hj2 : j = m + 2 := by omega
            subst hj2
            rw [B (m + 2) (by omega), hs]
            have : m + 2 - 1 = m + 1 := by omega
            rw [this, hs1]
        · intro j hj
          rw [hunf]
          exact B j (by omega)

/-- C1: for a frequency configured with depth `n > 0`, a (successful)
rotation produces the end state the spec describes: generation 1 is a
fresh hardlink clone of `current` taken at rotation time, each
generation `i` in `2..n` holds the pre-rotation generation `i - 1`
(absent generations are simply skipped, without error — the shift loop
tests `os.path.exists` before each `mv`), the pre-rotation generation
`n` is deleted by the initial `rm -rf`, and generations beyond `n` are
untouched.  No hypothesis restricts the pre-rotation state `s`, so a
first-ever rotation with missing generations also succeeds. -/
theorem makeSnapshot_rotation {α : Type} (snaps freq : String) (cur : α)
    (s : GenState α) (n : Int)
    (h : totalSnapshots snaps freq = Except.ok n) (hpos : 0 < n) :
    ∃ s2, (MakeSnapshot snaps freq cur s).1 = Except.ok s2 ∧
      s2 1 = some cur ∧
      (∀ i, 2 ≤ i → i ≤ n.toNat → s2 i = s (i - 1)) ∧
      (∀ j, n.toNat < j → s2 j = s j) := by
  have hnot : ¬ n ≤ 0 := by omega
  have h1 : (setGen s n.toNat none) n.toNat = none := setGen_same ..
  obtain ⟨A, B⟩ := shiftFrom_state freq n.toNat (setGen s n.toNat none) h1
  refine ⟨setGen (shiftFrom freq (setGen s n.toNat none) n.toNat).1 1
    (some cur), ?_, setGen_same .., ?_, ?_⟩
  · simp [MakeSnapshot, h, hnot]
  · intro i h2 hi
    rw [setGen_other _ _ _ i (by omega), A i h2 hi,
      setGen_other _ _ _ (i - 1) (by omega)]
  · intro j hj
    have hN : 1 ≤ n.toNat := by omega
    rw [setGen_other _ _ _ j (by omega), B j hj,
      setGen_other _ _ _ j (by omega)]

def genW : GenState Nat :=
  fun j => if j = 1 then some 11 else if j = 2 then some 12 else none

theorem makeSnapshot_rotation_witness :
    totalSnapshots "hourly=4,daily=3" "daily" = Except.ok 3 ∧
    (0 : Int) < 3 ∧
    ∃ s2, (MakeSnapshot "hourly=4,daily=3" "daily" 99 genW).1 =
        Except.ok s2 ∧
      s2 1 = some 99 ∧
      (∀ i, 2 ≤ i → i ≤ (3 : Int).toNat → s2 i = genW (i - 1)) ∧
      (∀ j, (3 : Int).toNat < j → s2 j = genW j) := by
  refine ⟨by decide, by decide, ?_⟩
  exact makeSnapshot_rotation "hourly=4,daily=3" "daily" 99 genW 3
    (by decide) (by decide)

/-- When the requested frequency never matches a well-formed pair of the
depth table, the accumulator keeps its starting value. -/
theorem totalSnapshotsGo_not_mem (freq : String) :
    ∀ (pairs : List (List Char)) (acc n : Int),
      totalSnapshotsGo freq pairs acc = Except.ok n →
      freq ∉ pairs.filterMap (fun p =>
        match splitChar '=' p with
        | [k, _] => some (String.mk k)
        | _ => none) →
      n = acc := by
  intro pairs
  induction pairs with
  | nil =>
    intro acc n h _
    exact (Except.ok.inj h).symm
  | cons p rest ih =>
    intro acc n h hmem
    cases hsp : splitChar '=' p with
    | nil =>
      simp only [totalSnapshotsGo, hsp] at h
      cases h
    | cons k t =>
      cases t with
      | nil =>
        simp only [totalSnapshotsGo, hsp] at h
        cases h
      | cons v t2 =>
        cases t2 with
        | cons w t3 =>
          simp only [totalSnapshotsGo, hsp] at h
          cases h
        | nil =>
          simp only [totalSnapshotsGo, hsp] at h
          simp only [List.filterMap_cons, hsp, List.mem_cons, not_or] at hmem
          rw [if_neg (fun he => hmem.1 he.symm)] at h
          exact ih acc n h hmem.2

/-- C2: when the requested frequency is absent from the parsed depth
table (so `total_snapshots` keeps its initial value 0) or its effective
count is non-positive, `MakeSnapshot` aborts at the
`assert total_snapshots > 0` precondition check, before the `rm`, the
shift loop, and the `cp` — the command trace is empty, so no filesystem
mutation is performed. -/
theorem makeSnapshot_invalid_frequency {α : Type} (snaps freq : String)
    (cur : α) (s : GenState α) (n : Int)
    (h : totalSnapshots snaps freq = Except.ok n)
    (hn : n ≤ 0 ∨ freq ∉ tableKeys snaps) :
    MakeSnapshot snaps freq cur s =
      (Except.error Err.invalidFrequency, []) := by
  have hle : n ≤ 0 := by
    cases hn with
    | inl h2 => exact h2
    | inr h2 =>
      have h3 : n = 0 :=
        totalSnapshotsGo_not_mem freq (splitChar ',' snaps.data) 0 n h h2
      omega
  simp [MakeSnapshot, h, hle]

theorem makeSnapshot_invalid_frequency_witness :
    totalSnapshots "hourly=4,daily=3" "weekly" = Except.ok 0 ∧
    ("weekly" ∉ tableKeys "hourly=4,daily=3") ∧
    MakeSnapshot "hourly=4,daily=3" "weekly" (99 : Nat) genW =
      (Except.error Err.invalidFrequency, []) := by
  refine ⟨by decide, by decide, ?_⟩
  exact makeSnapshot_invalid_frequency "hourly=4,daily=3" "weekly" 99 genW 0
    (by decide) (Or.inr (by decide))

/-- The rotation loop over the argument list visits the non-`snapshot`
tokens in order and stops right after the first failing rotation: it
runs exactly the rotations of the filtered prefix up to and including
the first failure (all of them when none fails), and reports success
exactly when every filtered token's rotation succeeds. -/
theorem rotLoop_spec (ok : Phase → Bool) :
    ∀ args : List String,
      rotLoop ok args =
        (((args.filter (fun a => !(a = "snapshot"))).take
            ((args.filter (fun a => !(a = "snapshot"))).findIdx
              (fun f => !(ok (Phase.rot f))) + 1)).map Phase.rot,
         (args.filter (fun a => !(a = "snapshot"))).all
           (fun f => ok (Phase.rot f))) := by
  intro args
  induction args with
  | nil => rfl
  | cons a rest ih =>
    by_cases ha : a = "snapshot"
    · subst ha
      simp [rotLoop, List.filter_cons, ih]
    · by_cases hok : ok (Phase.rot a)
      · simp [rotLoop, List.filter_cons, ha, hok, ih, List.findIdx_cons]
      · simp [rotLoop, List.filter_cons, ha, hok, List.findIdx_cons]

/-- C9: whenever the token `snapshot` occurs anywhere in the argument
list, the mount-and-sync phase is the first phase run, before any
rotation (the dispatch tests membership, not position); if it fails, the
re-raise terminates the process and no rotation is attempted.  The
remaining non-`snapshot` tokens are then rotated in their original
argument order, stopping right after the first failing rotation, with
overall success exactly when every phase succeeded. -/
theorem dispatch_order (args : List String) (ok : Phase → Bool) :
    dispatch args ok =
      (if "snapshot" ∈ args then
        (if ok Phase.backup then
          (Phase.backup ::
            ((args.filter (fun a => !(a = "snapshot"))).take
              ((args.filter (fun a => !(a = "snapshot"))).findIdx
                (fun f => !(ok (Phase.rot f))) + 1)).map Phase.rot,
           (args.filter (fun a => !(a = "snapshot"))).all
             (fun f => ok (Phase.rot f)))
         else ([Phase.backup], false))
       else
        (((args.filter (fun a => !(a = "snapshot"))).take
            ((args.filter (fun a => !(a = "snapshot"))).findIdx
              (fun f => !(ok (Phase.rot f))) + 1)).map Phase.rot,
         (args.filter (fun a => !(a = "snapshot"))).all
           (fun f => ok (Phase.rot f)))) := by
  by_cases hm : "snapshot" ∈ args
  · by_cases hb : ok Phase.backup
    · simp [dispatch, hm, hb, rotLoop_spec]
    · simp [dispatch, hm, hb]
  · simp [dispatch, hm, rotLoop_spec]
